import Mathlib

/-!
Shallow embedding of the `content_ownership` ink! contract (src/lib.rs).

Account identities (`AccountId`) are opaque comparable principals, modelled
as `Nat`.  Rust `String` values (`content_hash`, `oracle_data`) are byte
strings, modelled as `List Nat`; `str::starts_with` is byte-wise.
The two maps (`Mapping<u64, Content>` and `BTreeMap<String, u64>`) are
modelled as association lists with insert-overwrite semantics.
`u64` counters are `Nat` with an explicit bound `U64_MAX = 2 ^ 64 - 1`;
`checked_add` returns `none` exactly when the mathematical sum leaves the
representable range.  Host-supplied caller identity (`self.env().caller()`)
is made an explicit argument of every message.  Each message returns the
post-state together with the Rust `Result`, modelled as `Except Error`.
-/

/-- Opaque comparable principal (ink! `AccountId`, a 32-byte value). -/
abbrev AccountId := Nat

/-- Byte string (Rust `String` seen through `str::starts_with`). -/
abbrev ByteStr := List Nat

/-- Content record stored on-chain (struct `Content` in src/lib.rs). -/
structure Content where
  content_hash : ByteStr
  owner : AccountId
deriving DecidableEq

/-- Contract error enum (enum `Error` in src/lib.rs). -/
inductive Error where
  | NotAdmin
  | ContentNotFound
  | NotOwner
  | CounterOverflow
  | InvalidContent
deriving DecidableEq

/-- Contract storage (struct `ContentOwnership` in src/lib.rs). -/
structure ContentOwnership where
  admin : AccountId
  oracle_data : ByteStr
  contents : List (Nat × Content)
  next_content_id : Nat
  content_hash_to_id : List (ByteStr × Nat)
deriving DecidableEq

/-- Lookup in an association list (map `get` / `contains_key`). -/
def lookupA {α β : Type} [DecidableEq α] : List (α × β) → α → Option β
  | [], _ => none
  | (k, v) :: rest, a => if k = a then some v else lookupA rest a

/-- Insert-or-overwrite in an association list (map `insert`). -/
def insertA {α β : Type} [DecidableEq α] : List (α × β) → α → β → List (α × β)
  | [], a, b => [(a, b)]
  | (k, v) :: rest, a, b =>
      if k = a then (a, b) :: rest else (k, v) :: insertA rest a b

deriving instance DecidableEq for Except

/-- Largest value representable in a `u64`. -/
def U64_MAX : Nat := 2 ^ 64 - 1

/-- Rust `u64::checked_add` on in-range operands: `none` on overflow. -/
def checked_add (a b : Nat) : Option Nat :=
  if a + b ≤ U64_MAX then some (a + b) else none

/-- Byte string `s` begins with the bytes of `p` (Rust `str::starts_with`). -/
def starts_with : ByteStr → ByteStr → Bool
  | _, [] => true
  | [], _ :: _ => false
  | c :: cs, p :: ps => if c = p then starts_with cs ps else false

/-- Bytes of the ASCII string used by `Default for ContentOwnership`
for `oracle_data`, namely the fourteen characters d e f a u l t _ o r a c l e. -/
def default_oracle : ByteStr :=
  [100, 101, 102, 97, 117, 108, 116, 95, 111, 114, 97, 99, 108, 101]

/-- Default initialization values (impl `Default for ContentOwnership`):
zero admin account, `oracle_data` the fixed default byte string, empty
content map, counter starting at 1, empty hash index. -/
def ContentOwnership.default : ContentOwnership :=
  { admin := 0
    oracle_data := default_oracle
    contents := []
    next_content_id := 1
    content_hash_to_id := [] }

/-- Constructor `new`: the deployer becomes admin, everything else from
`Default`. -/
def ContentOwnership.new (caller : AccountId) : ContentOwnership :=
  { ContentOwnership.default with admin := caller }

/-- Message `update_oracle_data`: admin-gated replacement of `oracle_data`. -/
def update_oracle_data (s : ContentOwnership) (caller : AccountId)
    (new_data : ByteStr) : ContentOwnership × Except Error Unit :=
  if caller ≠ s.admin then
    (s, Except.error Error.NotAdmin)
  else
    ({ s with oracle_data := new_data }, Except.ok ())

/-- Private helper `validate_content_with_oracle`: the hash passes the gate
iff it starts with the bytes of the stored `oracle_data`. -/
def validate_content_with_oracle (s : ContentOwnership)
    (content_hash : ByteStr) : Bool :=
  starts_with content_hash s.oracle_data

/-- Message `register_content`: oracle gate, then dedup lookup, then fresh id
allocation with overflow check, then record plus index insertion. -/
def register_content (s : ContentOwnership) (caller : AccountId)
    (content_hash : ByteStr) : ContentOwnership × Except Error Nat :=
  if ! validate_content_with_oracle s content_hash then
    (s, Except.error Error.InvalidContent)
  else
    match lookupA s.content_hash_to_id content_hash with
    | some id => (s, Except.ok id)
    | none =>
        let content_id := s.next_content_id
        match checked_add s.next_content_id 1 with
        | none => (s, Except.error Error.CounterOverflow)
        | some n =>
            let record : Content := { content_hash := content_hash, owner := caller }
            ({ s with
                next_content_id := n
                contents := insertA s.contents content_id record
                content_hash_to_id := insertA s.content_hash_to_id content_hash content_id },
             Except.ok content_id)

/-- Message `transfer_ownership`: owner-gated overwrite of the record's
`owner` field. -/
def transfer_ownership (s : ContentOwnership) (caller : AccountId)
    (content_id : Nat) (new_owner : AccountId) :
    ContentOwnership × Except Error Unit :=
  match lookupA s.contents content_id with
  | none => (s, Except.error Error.ContentNotFound)
  | some record =>
      if caller ≠ record.owner then
        (s, Except.error Error.NotOwner)
      else
        ({ s with contents := insertA s.contents content_id
                    { record with owner := new_owner } },
         Except.ok ())

/-- Message `get_content`: read-only record lookup. -/
def get_content (s : ContentOwnership) (content_id : Nat) : Option Content :=
  lookupA s.contents content_id

/-- Message `get_oracle_data`: read-only view of the validation rule. -/
def get_oracle_data (s : ContentOwnership) : ByteStr :=
  s.oracle_data

/-- One contract message executed against a state, from any caller and with
any arguments; the target is the resulting state. -/
inductive Step : ContentOwnership → ContentOwnership → Prop where
  | register (s : ContentOwnership) (caller : AccountId) (fp : ByteStr) :
      Step s (register_content s caller fp).1
  | transfer (s : ContentOwnership) (caller : AccountId) (cid : Nat)
      (new_owner : AccountId) :
      Step s (transfer_ownership s caller cid new_owner).1
  | update (s : ContentOwnership) (caller : AccountId) (d : ByteStr) :
      Step s (update_oracle_data s caller d).1

/-- States reachable from construction by any sequence of messages. -/
inductive Reachable : ContentOwnership → Prop where
  | init (caller : AccountId) : Reachable (ContentOwnership.new caller)
  | step {s s' : ContentOwnership} : Reachable s → Step s s' → Reachable s'

/-- Registry invariants I1 and I2: records and the fingerprint index are
mutual mirrors, and every stored id is below the counter. -/
def RegistryInv (s : ContentOwnership) : Prop :=
  (∀ id r, lookupA s.contents id = some r →
      lookupA s.content_hash_to_id r.content_hash = some id) ∧
  (∀ fp id, lookupA s.content_hash_to_id fp = some id →
      ∃ r, lookupA s.contents id = some r ∧ r.content_hash = fp) ∧
  (∀ id r, lookupA s.contents id = some r → id < s.next_content_id)

/-- Scenario state: fresh registry deployed by account 0. -/
def sEx0 : ContentOwnership := ContentOwnership.new 0

/-- Scenario state: admin emptied the validation rule. -/
def sEx1 : ContentOwnership := (update_oracle_data sEx0 0 []).1

/-- Scenario state: account 0 registered fingerprint `[1]` (id 1). -/
def sEx2 : ContentOwnership := (register_content sEx1 0 [1]).1

/-- Scenario state: account 0 additionally registered fingerprint `[2]`
(id 2). -/
def sEx2b : ContentOwnership := (register_content sEx2 0 [2]).1

/-- Scenario state: after registering `[1]`, the admin changed the rule
to `[2]`, which `[1]` does not start with. -/
def sEx3 : ContentOwnership := (update_oracle_data sEx2 0 [2]).1

/-- Scenario state: empty registry whose id counter already sits at the
largest `u64` value, with an all-accepting empty rule. -/
def sOvf : ContentOwnership :=
  { admin := 0
    oracle_data := []
    contents := []
    next_content_id := U64_MAX
    content_hash_to_id := [] }

theorem lookupA_insertA_self {α β : Type} [DecidableEq α]
    (l : List (α × β)) (k : α) (v : β) :
    lookupA (insertA l k v) k = some v := by
  induction l with
  | nil => simp [insertA, lookupA]
  | cons p rest ih =>
      obtain ⟨k', v'⟩ := p
      by_cases h : k' = k
      · simp [insertA, h, lookupA]
      · simp [insertA, h, lookupA, ih]

theorem lookupA_insertA_ne {α β : Type} [DecidableEq α]
    (l : List (α × β)) (k k' : α) (v : β) (h : k' ≠ k) :
    lookupA (insertA l k v) k' = lookupA l k' := by
  have hk : ¬ k = k' := fun e => h e.symm
  induction l with
  | nil => simp [insertA, lookupA, hk]
  | cons p rest ih =>
      obtain ⟨k0, v0⟩ := p
      by_cases h0 : k0 = k
      · subst h0
        simp [insertA, lookupA, hk]
      · simp only [insertA, if_neg h0, lookupA]
        by_cases h1 : k0 = k'
        · simp [h1]
        · simp [h1, ih]

theorem update_oracle_data_cases (s : ContentOwnership) (caller : AccountId)
    (d : ByteStr) :
    (caller = s.admin ∧
        update_oracle_data s caller d = ({ s with oracle_data := d }, Except.ok ())) ∨
    (caller ≠ s.admin ∧
        update_oracle_data s caller d = (s, Except.error Error.NotAdmin)) := by
  by_cases h : caller = s.admin
  · exact Or.inl ⟨h, by simp [update_oracle_data, h]⟩
  · exact Or.inr ⟨h, by simp [update_oracle_data, h]⟩

theorem transfer_ownership_cases (s : ContentOwnership) (caller : AccountId)
    (cid : Nat) (new_owner : AccountId) :
    (lookupA s.contents cid = none ∧
        transfer_ownership s caller cid new_owner =
          (s, Except.error Error.ContentNotFound)) ∨
    (∃ r, lookupA s.contents cid = some r ∧ caller ≠ r.owner ∧
        transfer_ownership s caller cid new_owner =
          (s, Except.error Error.NotOwner)) ∨
    (∃ r, lookupA s.contents cid = some r ∧ caller = r.owner ∧
        transfer_ownership s caller cid new_owner =
          ({ s with contents := insertA s.contents cid ⟨r.content_hash, new_owner⟩ },
           Except.ok ())) := by
  cases hl : lookupA s.contents cid with
  | none => exact Or.inl ⟨rfl, by simp [transfer_ownership, hl]⟩
  | some r =>
      by_cases ho : caller = r.owner
      · exact Or.inr (Or.inr ⟨r, rfl, ho, by simp [transfer_ownership, hl, ho]⟩)
      · exact Or.inr (Or.inl ⟨r, rfl, ho, by simp [transfer_ownership, hl, ho]⟩)

theorem register_content_cases (s : ContentOwnership) (c : AccountId)
    (fp : ByteStr) :
    (validate_content_with_oracle s fp = false ∧
        register_content s c fp = (s, Except.error Error.InvalidContent)) ∨
    (validate_content_with_oracle s fp = true ∧
        ∃ id, lookupA s.content_hash_to_id fp = some id ∧
          register_content s c fp = (s, Except.ok id)) ∨
    (validate_content_with_oracle s fp = true ∧
        lookupA s.content_hash_to_id fp = none ∧ U64_MAX ≤ s.next_content_id ∧
        register_content s c fp = (s, Except.error Error.CounterOverflow)) ∨
    (validate_content_with_oracle s fp = true ∧
        lookupA s.content_hash_to_id fp = none ∧ s.next_content_id < U64_MAX ∧
        register_content s c fp =
          ({ s with
              next_content_id := s.next_content_id + 1
              contents := insertA s.contents s.next_content_id ⟨fp, c⟩
              content_hash_to_id :=
                insertA s.content_hash_to_id fp s.next_content_id },
           Except.ok s.next_content_id)) := by
  cases hv : validate_content_with_oracle s fp with
  | false => exact Or.inl ⟨rfl, by simp [register_content, hv]⟩
  | true =>
      refine Or.inr ?_
      cases hl : lookupA s.content_hash_to_id fp with
      | some id =>
          exact Or.inl ⟨rfl, id, rfl, by simp [register_content, hv, hl]⟩
      | none =>
          refine Or.inr ?_
          rcases Nat.lt_or_ge s.next_content_id U64_MAX with hlt | hge
          · refine Or.inr ⟨rfl, rfl, hlt, ?_⟩
            have hadd : checked_add s.next_content_id 1 =
                some (s.next_content_id + 1) := by
              unfold checked_add
              rw [if_pos (by omega)]
            simp [register_content, hv, hl, hadd]
          · refine Or.inl ⟨rfl, rfl, hge, ?_⟩
            have hadd : checked_add s.next_content_id 1 = none := by
              unfold checked_add
              rw [if_neg (by omega)]
            simp [register_content, hv, hl, hadd]

theorem starts_with_iff (s p : ByteStr) :
    starts_with s p = true ↔ ∃ t, s = p ++ t := by
  induction p generalizing s with
  | nil => simp [starts_with]
  | cons b bs ih =>
      cases s with
      | nil => simp [starts_with]
      | cons c cs =>
          simp only [starts_with, List.cons_append, List.cons.injEq]
          by_cases hcb : c = b
          · subst hcb
            simp [ih]
          · simp [hcb]

theorem RegistryInv_new (caller : AccountId) :
    RegistryInv (ContentOwnership.new caller) := by
  refine ⟨?_, ?_, ?_⟩ <;> intro a b h <;>
    simp [ContentOwnership.new, ContentOwnership.default, lookupA] at h

theorem index_inj_of_inv {s : ContentOwnership} (hInv : RegistryInv s)
    {fp1 fp2 : ByteStr} {id : Nat}
    (ha : lookupA s.content_hash_to_id fp1 = some id)
    (hb : lookupA s.content_hash_to_id fp2 = some id) : fp1 = fp2 := by
  obtain ⟨_, hconv, _⟩ := hInv
  obtain ⟨r1, hc1, hh1⟩ := hconv _ _ ha
  obtain ⟨r2, hc2, hh2⟩ := hconv _ _ hb
  rw [hc1] at hc2
  rw [← hh1, ← hh2, Option.some.inj hc2]

theorem index_id_lt_of_inv {s : ContentOwnership} (hInv : RegistryInv s)
    {fp : ByteStr} {id : Nat}
    (ha : lookupA s.content_hash_to_id fp = some id) :
    id < s.next_content_id := by
  obtain ⟨_, hconv, hlt⟩ := hInv
  obtain ⟨r, hc, _⟩ := hconv _ _ ha
  exact hlt _ _ hc

theorem RegistryInv_step {s s' : ContentOwnership}
    (hInv : RegistryInv s) (hs : Step s s') : RegistryInv s' := by
  obtain ⟨h1, h2, h3⟩ := hInv
  cases hs with
  | update caller d =>
      rcases update_oracle_data_cases s caller d with ⟨_, he⟩ | ⟨_, he⟩ <;>
        rw [he] <;> exact ⟨h1, h2, h3⟩
  | transfer caller cid o =>
      rcases transfer_ownership_cases s caller cid o with
        ⟨_, he⟩ | ⟨r, _, _, he⟩ | ⟨r, hl, ho, he⟩
      · rw [he]; exact ⟨h1, h2, h3⟩
      · rw [he]; exact ⟨h1, h2, h3⟩
      · rw [he]
        refine ⟨?_, ?_, ?_⟩
        · intro id r' hr'
          by_cases hid : id = cid
          · subst hid
            rw [lookupA_insertA_self] at hr'
            have hr2 : r' = ⟨r.content_hash, o⟩ := (Option.some.inj hr').symm
            rw [hr2]
            exact h1 _ r hl
          · rw [lookupA_insertA_ne _ _ _ _ hid] at hr'
            exact h1 _ _ hr'
        · intro fp id hfp
          obtain ⟨r'', hc, hh⟩ := h2 _ _ hfp
          by_cases hid : id = cid
          · subst hid
            rw [hl] at hc
            refine ⟨⟨r.content_hash, o⟩, lookupA_insertA_self .., ?_⟩
            rw [← hh, Option.some.inj hc]
          · exact ⟨r'', by rw [lookupA_insertA_ne _ _ _ _ hid]; exact hc, hh⟩
        · intro id r' hr'
          by_cases hid : id = cid
          · subst hid
            exact h3 _ _ hl
          · rw [lookupA_insertA_ne _ _ _ _ hid] at hr'
            exact h3 _ _ hr'
  | register caller fp =>
      rcases register_content_cases s caller fp with
        ⟨_, he⟩ | ⟨_, id0, _, he⟩ | ⟨_, _, _, he⟩ | ⟨_, hl, _, he⟩
      · rw [he]; exact ⟨h1, h2, h3⟩
      · rw [he]; exact ⟨h1, h2, h3⟩
      · rw [he]; exact ⟨h1, h2, h3⟩
      · rw [he]
        refine ⟨?_, ?_, ?_⟩
        · intro id r' hr'
          by_cases hid : id = s.next_content_id
          · subst hid
            rw [lookupA_insertA_self] at hr'
            have hr2 : r' = ⟨fp, caller⟩ := (Option.some.inj hr').symm
            rw [hr2]
            exact lookupA_insertA_self ..
          · rw [lookupA_insertA_ne _ _ _ _ hid] at hr'
            by_cases hfp : r'.content_hash = fp
            · exact absurd (hfp ▸ h1 _ _ hr') (by rw [hl]; intro h; cases h)
            · rw [lookupA_insertA_ne _ _ _ _ hfp]
              exact h1 _ _ hr'
        · intro fp' id hfp'
          by_cases hf : fp' = fp
          · subst hf
            rw [lookupA_insertA_self] at hfp'
            have hid : id = s.next_content_id := (Option.some.inj hfp').symm
            rw [hid]
            exact ⟨⟨fp', caller⟩, lookupA_insertA_self .., rfl⟩
          · rw [lookupA_insertA_ne _ _ _ _ hf] at hfp'
            obtain ⟨r'', hc, hh⟩ := h2 _ _ hfp'
            have hid : id ≠ s.next_content_id :=
              Nat.ne_of_lt (h3 _ _ hc)
            refine ⟨r'', ?_, hh⟩
            rw [lookupA_insertA_ne _ _ _ _ hid]
            exact hc
        · intro id r' hr'
          by_cases hid : id = s.next_content_id
          · subst hid
            exact Nat.lt_succ_self _
          · rw [lookupA_insertA_ne _ _ _ _ hid] at hr'
            exact Nat.lt_succ_of_lt (h3 _ _ hr')

theorem RegistryInv_reachable {s : ContentOwnership} (h : Reachable s) :
    RegistryInv s := by
  induction h with
  | init caller => exact RegistryInv_new caller
  | step _ hs ih => exact RegistryInv_step ih hs

theorem next_id_mono {s s' : ContentOwnership} (h : Step s s') :
    s.next_content_id ≤ s'.next_content_id := by
  cases h with
  | register caller fp =>
      rcases register_content_cases s caller fp with
        ⟨_, he⟩ | ⟨_, id0, _, he⟩ | ⟨_, _, _, he⟩ | ⟨_, _, _, he⟩ <;>
        (rw [he]; try simp)
  | transfer caller cid o =>
      rcases transfer_ownership_cases s caller cid o with
        ⟨_, he⟩ | ⟨r, _, _, he⟩ | ⟨r, _, _, he⟩ <;> rw [he]
  | update caller d =>
      rcases update_oracle_data_cases s caller d with ⟨_, he⟩ | ⟨_, he⟩ <;>
        rw [he]

theorem register_ok_cases {s : ContentOwnership} {c : AccountId} {fp : ByteStr}
    {id : Nat} (h : (register_content s c fp).2 = Except.ok id) :
    (validate_content_with_oracle s fp = true ∧
        lookupA s.content_hash_to_id fp = some id ∧
        (register_content s c fp).1 = s) ∨
    (validate_content_with_oracle s fp = true ∧
        lookupA s.content_hash_to_id fp = none ∧ id = s.next_content_id ∧
        (register_content s c fp).1 =
          { s with
              next_content_id := s.next_content_id + 1
              contents := insertA s.contents s.next_content_id ⟨fp, c⟩
              content_hash_to_id :=
                insertA s.content_hash_to_id fp s.next_content_id }) := by
  rcases register_content_cases s c fp with
    ⟨hv, he⟩ | ⟨hv, id0, hl, he⟩ | ⟨hv, hl, hb, he⟩ | ⟨hv, hl, hb, he⟩
  · rw [he] at h; simp at h
  · rw [he] at h
    simp only [] at h
    have hid : id0 = id := Except.ok.inj h
    subst hid
    exact Or.inl ⟨hv, hl, by rw [he]⟩
  · rw [he] at h; simp at h
  · rw [he] at h
    simp only [] at h
    have hid : s.next_content_id = id := Except.ok.inj h
    rw [← hid]
    exact Or.inr ⟨hv, hl, rfl, by rw [he]⟩

theorem register_distinct_ids {s : ContentOwnership} (hInv : RegistryInv s)
    {c1 c2 : AccountId} {fp1 fp2 : ByteStr} {id1 id2 : Nat} (hne : fp1 ≠ fp2)
    (h1 : (register_content s c1 fp1).2 = Except.ok id1)
    (h2 : (register_content (register_content s c1 fp1).1 c2 fp2).2 =
      Except.ok id2) :
    id1 ≠ id2 := by
  rcases register_ok_cases h1 with ⟨_, hl1, hs1⟩ | ⟨_, hl1, hid1, hs1⟩
  · rw [hs1] at h2
    rcases register_ok_cases h2 with ⟨_, hl2, _⟩ | ⟨_, _, hid2, _⟩
    · intro he
      exact hne (index_inj_of_inv hInv hl1 (he ▸ hl2))
    · rw [hid2]
      exact Nat.ne_of_lt (index_id_lt_of_inv hInv hl1)
  · rw [hs1] at h2
    rcases register_ok_cases h2 with ⟨_, hl2, _⟩ | ⟨_, _, hid2, _⟩
    · have hproj : ({ s with
          next_content_id := s.next_content_id + 1
          contents := insertA s.contents s.next_content_id ⟨fp1, c1⟩
          content_hash_to_id :=
            insertA s.content_hash_to_id fp1 s.next_content_id } :
          ContentOwnership).content_hash_to_id =
          insertA s.content_hash_to_id fp1 s.next_content_id := rfl
      rw [hproj, lookupA_insertA_ne _ _ _ _ (fun e => hne e.symm)] at hl2
      rw [hid1]
      exact fun he => Nat.ne_of_lt (index_id_lt_of_inv hInv hl2)
        (by rw [← he])
  -- mint then mint: id2 = next + 1 > id1 = next
    · rw [hid1, hid2]
      exact Nat.ne_of_lt (Nat.lt_succ_self _)

theorem register_fresh_increasing {s : ContentOwnership}
    {c1 c2 : AccountId} {fp1 fp2 : ByteStr} {id1 id2 : Nat}
    (hf1 : lookupA s.content_hash_to_id fp1 = none)
    (h1 : (register_content s c1 fp1).2 = Except.ok id1)
    (hf2 : lookupA (register_content s c1 fp1).1.content_hash_to_id fp2 = none)
    (h2 : (register_content (register_content s c1 fp1).1 c2 fp2).2 =
      Except.ok id2) :
    id1 < id2 := by
  rcases register_ok_cases h1 with ⟨_, hl1, _⟩ | ⟨_, _, hid1, hs1⟩
  · rw [hf1] at hl1; cases hl1
  · rw [hs1] at h2
    rcases register_ok_cases h2 with ⟨_, hl2, _⟩ | ⟨_, _, hid2, _⟩
    · rw [hs1] at hf2
      rw [hf2] at hl2; cases hl2
    · rw [hid1, hid2]
      exact Nat.lt_succ_self _

theorem reachable_sEx2 : Reachable sEx2 :=
  Reachable.step (Reachable.step (Reachable.init 0) (Step.update sEx0 0 []))
    (Step.register sEx1 0 [1])

theorem reachable_sEx2b : Reachable sEx2b :=
  Reachable.step reachable_sEx2 (Step.register sEx2 0 [2])

theorem reachable_sEx3 : Reachable sEx3 :=
  Reachable.step reachable_sEx2 (Step.update sEx2 0 [2])

/-- Claim C1: `transfer_ownership` fails with `ContentNotFound` when the id
has no record; when a record exists it succeeds iff the caller equals the
record's current owner (failing with `NotOwner` and leaving the state
unchanged otherwise); on success only the record's owner becomes
`new_owner`, its fingerprint and its id staying put, and `new_owner` is
unconstrained, so there is no self-transfer restriction. -/
theorem transfer_ownership_spec (s : ContentOwnership)
    (caller new_owner : AccountId) (cid : Nat) :
    (lookupA s.contents cid = none →
        transfer_ownership s caller cid new_owner =
          (s, Except.error Error.ContentNotFound)) ∧
    (∀ r, lookupA s.contents cid = some r →
        (caller ≠ r.owner →
            transfer_ownership s caller cid new_owner =
              (s, Except.error Error.NotOwner)) ∧
        (caller = r.owner →
            transfer_ownership s caller cid new_owner =
              ({ s with contents := insertA s.contents cid ⟨r.content_hash, new_owner⟩ },
               Except.ok ()) ∧
            get_content (transfer_ownership s caller cid new_owner).1 cid =
              some ⟨r.content_hash, new_owner⟩)) ∧
    ((transfer_ownership s caller cid new_owner).2 = Except.ok () ↔
        ∃ r, lookupA s.contents cid = some r ∧ caller = r.owner) := by
  rcases transfer_ownership_cases s caller cid new_owner with
    ⟨hl, he⟩ | ⟨r, hl, ho, he⟩ | ⟨r, hl, ho, he⟩
  · refine ⟨fun _ => he, ?_, ?_⟩
    · intro r hr
      rw [hl] at hr
      cases hr
    · rw [he]
      simp [hl]
  · refine ⟨?_, ?_, ?_⟩
    · intro h
      rw [hl] at h
      cases h
    · intro r' hr'
      rw [hl] at hr'
      have hrr : r = r' := Option.some.inj hr'
      subst hrr
      exact ⟨fun _ => he, fun hc => absurd hc ho⟩
    · rw [he]
      simp only [Except.error.injEq]
      constructor
      · intro h
        cases h
      · rintro ⟨r', hr', hc⟩
        rw [hl] at hr'
        have hrr : r = r' := Option.some.inj hr'
        subst hrr
        exact absurd hc ho
  · refine ⟨?_, ?_, ?_⟩
    · intro h
      rw [hl] at h
      cases h
    · intro r' hr'
      rw [hl] at hr'
      have hrr : r = r' := Option.some.inj hr'
      subst hrr
      refine ⟨fun hno => absurd ho hno, fun _ => ⟨he, ?_⟩⟩
      rw [he]
      simp [get_content, lookupA_insertA_self]
  -- success direction of the iff
    · rw [he]
      exact ⟨fun _ => ⟨r, hl, ho⟩, fun _ => rfl⟩

theorem transfer_ownership_spec_witness :
    transfer_ownership sEx2 0 1 5 =
      ({ sEx2 with contents := insertA sEx2.contents 1 ⟨[1], 5⟩ },
        Except.ok ()) :=
  (((transfer_ownership_spec sEx2 0 5 1).2.1 ⟨[1], 0⟩ (by decide)).2
    (by decide)).1

/-- Claim C3: the validation gate accepts a fingerprint iff the fingerprint
begins with the bytes of the current rule, an empty rule accepts every
fingerprint, and a rejected fingerprint makes `register_content` fail with
`InvalidContent` leaving the state unchanged. -/
theorem validation_gate_spec (s : ContentOwnership) (caller : AccountId)
    (fp : ByteStr) :
    (validate_content_with_oracle s fp = true ↔
        ∃ t, fp = s.oracle_data ++ t) ∧
    (s.oracle_data = [] → validate_content_with_oracle s fp = true) ∧
    (validate_content_with_oracle s fp = false →
        register_content s caller fp = (s, Except.error Error.InvalidContent)) := by
  refine ⟨starts_with_iff fp s.oracle_data, ?_, ?_⟩
  · intro h
    exact (starts_with_iff fp s.oracle_data).2 ⟨fp, by rw [h, List.nil_append]⟩
  · intro hv
    rcases register_content_cases s caller fp with
      ⟨_, he⟩ | ⟨ht, _⟩ | ⟨ht, _, _, _⟩ | ⟨ht, _, _, _⟩
    · exact he
    all_goals rw [hv] at ht; cases ht

theorem validation_gate_spec_witness :
    validate_content_with_oracle sEx3 [1] = false ∧
    register_content sEx3 3 [1] = (sEx3, Except.error Error.InvalidContent) :=
  ⟨by decide, (validation_gate_spec sEx3 3 [1]).2.2 (by decide)⟩

/-- Claim C4: `update_oracle_data` succeeds and replaces the rule iff the
caller equals the stored admin; any other caller gets `NotAdmin` with the
whole state, in particular the value read back by `get_oracle_data`,
unchanged. -/
theorem update_oracle_data_spec (s : ContentOwnership) (caller : AccountId)
    (new_data : ByteStr) :
    (caller = s.admin →
        update_oracle_data s caller new_data =
          ({ s with oracle_data := new_data }, Except.ok ())) ∧
    (caller ≠ s.admin →
        update_oracle_data s caller new_data =
          (s, Except.error Error.NotAdmin) ∧
        get_oracle_data (update_oracle_data s caller new_data).1 =
          get_oracle_data s) := by
  rcases update_oracle_data_cases s caller new_data with ⟨h, he⟩ | ⟨h, he⟩
  · exact ⟨fun _ => he, fun hn => absurd h hn⟩
  · exact ⟨fun hc => absurd hc h, fun _ => ⟨he, by rw [he]⟩⟩

theorem update_oracle_data_spec_witness :
    update_oracle_data (ContentOwnership.new 0) 1 [7] =
      (ContentOwnership.new 0, Except.error Error.NotAdmin) :=
  ((update_oracle_data_spec (ContentOwnership.new 0) 1 [7]).2 (by decide)).1

/-- Claim C8: construction is total (no error path) and yields admin equal
to the creating caller, the fixed default rule (the constructor takes no
rule argument, so the initial value is always the omitted-case default
string), counter 1, and both maps empty. -/
theorem new_spec (caller : AccountId) :
    ContentOwnership.new caller =
      { admin := caller
        oracle_data := default_oracle
        contents := []
        next_content_id := 1
        content_hash_to_id := [] } := rfl

/-- Claim C10: a successful `transfer_ownership` modifies only the owner
field of the record stored at the transferred id: that record's fingerprint,
every record at any other id, the fingerprint index, the counter, the rule,
and the admin are all unchanged. -/
theorem transfer_ownership_frame (s : ContentOwnership)
    (caller new_owner : AccountId) (cid : Nat) (r : Content)
    (hr : lookupA s.contents cid = some r) (ho : caller = r.owner) :
    (transfer_ownership s caller cid new_owner).1.admin = s.admin ∧
    (transfer_ownership s caller cid new_owner).1.oracle_data =
      s.oracle_data ∧
    (transfer_ownership s caller cid new_owner).1.next_content_id =
      s.next_content_id ∧
    (transfer_ownership s caller cid new_owner).1.content_hash_to_id =
      s.content_hash_to_id ∧
    get_content (transfer_ownership s caller cid new_owner).1 cid =
      some ⟨r.content_hash, new_owner⟩ ∧
    (∀ cid', cid' ≠ cid →
        get_content (transfer_ownership s caller cid new_owner).1 cid' =
          get_content s cid') := by
  rcases transfer_ownership_cases s caller cid new_owner with
    ⟨hl, _⟩ | ⟨r', hl, hno, _⟩ | ⟨r', hl, _, he⟩
  · rw [hr] at hl
    cases hl
  · rw [hr] at hl
    have hrr : r = r' := Option.some.inj hl
    subst hrr
    exact absurd ho hno
  · rw [hr] at hl
    have hrr : r = r' := Option.some.inj hl
    subst hrr
    rw [he]
    refine ⟨rfl, rfl, rfl, rfl, ?_, ?_⟩
    · simp [get_content, lookupA_insertA_self]
    · intro cid' hne
      simp [get_content, lookupA_insertA_ne _ _ _ _ hne]

theorem transfer_ownership_frame_witness :
    (transfer_ownership sEx2 0 1 9).1.content_hash_to_id =
      sEx2.content_hash_to_id ∧
    get_content (transfer_ownership sEx2 0 1 9).1 1 = some ⟨[1], 9⟩ :=
  ⟨(transfer_ownership_frame sEx2 0 9 1 ⟨[1], 0⟩ (by decide)
      (by decide)).2.2.2.1,
   (transfer_ownership_frame sEx2 0 9 1 ⟨[1], 0⟩ (by decide)
      (by decide)).2.2.2.2.1⟩

/-- Claim C5: every operation is all-or-nothing on failure: whenever a
message returns an error the post-state equals the pre-state, and in a
state whose counter sits at the largest `u64` value a fresh registration
fails with `CounterOverflow` creating no record and no index entry. -/
theorem atomic_on_failure (s : ContentOwnership) (caller : AccountId)
    (fp d : ByteStr) (cid : Nat) (o : AccountId) :
    (∀ e, (register_content s caller fp).2 = Except.error e →
        (register_content s caller fp).1 = s) ∧
    (∀ e, (transfer_ownership s caller cid o).2 = Except.error e →
        (transfer_ownership s caller cid o).1 = s) ∧
    (∀ e, (update_oracle_data s caller d).2 = Except.error e →
        (update_oracle_data s caller d).1 = s) ∧
    (s.next_content_id = U64_MAX →
        validate_content_with_oracle s fp = true →
        lookupA s.content_hash_to_id fp = none →
        register_content s caller fp = (s, Except.error Error.CounterOverflow)) := by
  refine ⟨?_, ?_, ?_, ?_⟩
  · intro e he
    rcases register_content_cases s caller fp with
      ⟨_, h⟩ | ⟨_, id0, _, h⟩ | ⟨_, _, _, h⟩ | ⟨_, _, _, h⟩
    · rw [h]
    · rw [h] at he; simp at he
    · rw [h]
    · rw [h] at he; simp at he
  · intro e he
    rcases transfer_ownership_cases s caller cid o with
      ⟨_, h⟩ | ⟨r, _, _, h⟩ | ⟨r, _, _, h⟩
    · rw [h]
    · rw [h]
    · rw [h] at he; simp at he
  · intro e he
    rcases update_oracle_data_cases s caller d with ⟨_, h⟩ | ⟨_, h⟩
    · rw [h] at he; simp at he
    · rw [h]
  · intro hmax hv hl
    rcases register_content_cases s caller fp with
      ⟨hvf, h⟩ | ⟨_, id0, hl0, h⟩ | ⟨_, _, _, h⟩ | ⟨_, _, hlt, h⟩
    · rw [hv] at hvf
      cases hvf
    · rw [hl] at hl0
      cases hl0
    · exact h
    · rw [hmax] at hlt
      exact absurd hlt (lt_irrefl _)

theorem atomic_on_failure_witness :
    register_content sOvf 4 [9] = (sOvf, Except.error Error.CounterOverflow) :=
  (atomic_on_failure sOvf 4 [9] [] 0 0).2.2.2 rfl (by decide) rfl

/-- Claim C2 counterexample: a reachable state in which the fingerprint
`[1]` already sits in the fingerprint index, yet `register_content` with
that very fingerprint returns an error (`InvalidContent`, because the
rule changed to `[2]` after the original registration) instead of the
existing id, refuting the claim's universal quantification over states. -/
theorem register_dedup_counterexample :
    Reachable sEx3 ∧
    lookupA sEx3.content_hash_to_id [1] = some 1 ∧
    register_content sEx3 4 [1] = (sEx3, Except.error Error.InvalidContent) :=
  ⟨reachable_sEx3, by decide, by decide⟩

/-- Claim C2 (amended): in every state in which the fingerprint already
sits in the fingerprint index AND passes the current validation gate,
`register_content` returns the existing id with the whole state unchanged
(no new record, no error, no owner reassignment); consequently, immediately
re-registering a just-registered fingerprint returns the same id from any
caller with no state change. -/
theorem register_dedup_idempotent (s : ContentOwnership) (c1 c2 : AccountId)
    (fp : ByteStr) (id : Nat) :
    (validate_content_with_oracle s fp = true →
        lookupA s.content_hash_to_id fp = some id →
        register_content s c1 fp = (s, Except.ok id)) ∧
    ((register_content s c1 fp).2 = Except.ok id →
        register_content (register_content s c1 fp).1 c2 fp =
          ((register_content s c1 fp).1, Except.ok id)) := by
  constructor
  · intro hv hl
    simp [register_content, hv, hl]
  · intro h
    rcases register_ok_cases h with ⟨hv, hl, hs⟩ | ⟨hv, hl, hid, hs⟩
    · rw [hs]
      simp [register_content, hv, hl]
    · rw [hs]
      have hv' : starts_with fp s.oracle_data = true := hv
      simp [register_content, validate_content_with_oracle, hv',
        lookupA_insertA_self, hid]

theorem register_dedup_idempotent_witness :
    register_content sEx2 5 [1] = (sEx2, Except.ok 1) :=
  (register_dedup_idempotent sEx2 5 9 [1] 1).1 (by decide) (by decide)

/-- Claim C7 counterexample: a freshly created registry carries the
non-empty default rule, so `register_content` there CAN fail with
`InvalidContent`; the ASCII fingerprint a b c is rejected. -/
theorem default_rule_counterexample :
    register_content (ContentOwnership.new 0) 0 [97, 98, 99] =
      (ContentOwnership.new 0, Except.error Error.InvalidContent) := by
  decide

/-- Claim C7 (amended): the construction-time default rule is the fixed
non-empty byte string of d e f a u l t _ o r a c l e, so on a freshly
created registry the gate accepts a fingerprint iff the fingerprint begins
with those bytes, and `register_content` there fails with `InvalidContent`
exactly when it does not; an empty rule, by contrast, accepts every
fingerprint. -/
theorem default_rule_gate (a caller : AccountId) (fp : ByteStr)
    (s : ContentOwnership) :
    (validate_content_with_oracle (ContentOwnership.new a) fp = true ↔
        ∃ t, fp = default_oracle ++ t) ∧
    ((register_content (ContentOwnership.new a) caller fp).2 =
        Except.error Error.InvalidContent ↔
      ¬ ∃ t, fp = default_oracle ++ t) ∧
    (s.oracle_data = [] → validate_content_with_oracle s fp = true) := by
  refine ⟨starts_with_iff fp default_oracle, ?_, ?_⟩
  · rcases register_content_cases (ContentOwnership.new a) caller fp with
      ⟨hvf, he⟩ | ⟨hv, id0, hl, he⟩ | ⟨hv, hl, hb, he⟩ | ⟨hv, hl, hb, he⟩
    · rw [he]
      constructor
      · intro _ hex
        have hvt : validate_content_with_oracle (ContentOwnership.new a) fp =
            true := (starts_with_iff fp default_oracle).2 hex
        rw [hvf] at hvt
        cases hvt
      · intro _
        rfl
    · simp [ContentOwnership.new, ContentOwnership.default, lookupA] at hl
    · have hone : ¬ U64_MAX ≤ (1 : Nat) := by decide
      exact absurd hb hone
    · rw [he]
      constructor
      · intro hcon
        cases hcon
      · intro hn
        exact absurd ((starts_with_iff fp default_oracle).1 hv) hn
  · intro h
    show starts_with fp s.oracle_data = true
    rw [h]
    cases fp <;> rfl

theorem default_rule_gate_witness :
    validate_content_with_oracle sEx1 [42] = true :=
  (default_rule_gate 0 0 [42] sEx1).2.2 (by decide)

/-- Claim C9: the validation gate runs before the deduplication check: in
the reachable state where fingerprint `[1]` was registered under an empty
rule and the rule has since become `[2]`, registering `[1]` again fails
with `InvalidContent` and leaves the state unchanged instead of returning
the existing id 1. -/
theorem gate_checked_before_dedup :
    Reachable sEx3 ∧
    lookupA sEx3.content_hash_to_id [1] = some 1 ∧
    validate_content_with_oracle sEx3 [1] = false ∧
    register_content sEx3 9 [1] = (sEx3, Except.error Error.InvalidContent) :=
  ⟨reachable_sEx3, by decide, by decide, by decide⟩

/-- Claim C6 counterexample: two consecutive successful registrations with
distinct fingerprints whose returned ids are NOT strictly increasing in
call order: after `[1]` (id 1) and `[2]` (id 2) are registered, the next
call registering `[1]` again succeeds returning 1, which is smaller than
the 2 returned by the call before it. -/
theorem register_order_counterexample :
    Reachable sEx2b ∧
    (register_content sEx2 0 [2]).2 = Except.ok 2 ∧
    (register_content sEx2b 7 [1]).2 = Except.ok 1 ∧
    ¬ (2 : Nat) < 1 :=
  ⟨reachable_sEx2b, by decide, by decide, by decide⟩

/-- Claim C6 (amended): every reachable state satisfies the registry
invariants: records and the fingerprint index mirror each other exactly
(I1), every stored id is below the counter so the counter strictly exceeds
every id ever issued (I2), no two fingerprints share an id and no
fingerprint maps to two ids (I3); moreover consecutive successful
registrations of distinct fingerprints return distinct ids, consecutive
first-time (index-miss) registrations return strictly increasing ids, and
no message ever decreases the counter — but ids returned by successful
re-registrations of old fingerprints need not increase in call order. -/
theorem registry_invariants (s : ContentOwnership) (h : Reachable s) :
    RegistryInv s ∧
    (∀ fp1 fp2 id, lookupA s.content_hash_to_id fp1 = some id →
        lookupA s.content_hash_to_id fp2 = some id → fp1 = fp2) ∧
    (∀ fp id1 id2, lookupA s.content_hash_to_id fp = some id1 →
        lookupA s.content_hash_to_id fp = some id2 → id1 = id2) ∧
    (∀ c1 c2 fp1 fp2 id1 id2, fp1 ≠ fp2 →
        (register_content s c1 fp1).2 = Except.ok id1 →
        (register_content (register_content s c1 fp1).1 c2 fp2).2 =
          Except.ok id2 →
        id1 ≠ id2) ∧
    (∀ c1 c2 fp1 fp2 id1 id2,
        lookupA s.content_hash_to_id fp1 = none →
        (register_content s c1 fp1).2 = Except.ok id1 →
        lookupA (register_content s c1 fp1).1.content_hash_to_id fp2 = none →
        (register_content (register_content s c1 fp1).1 c2 fp2).2 =
          Except.ok id2 →
        id1 < id2) ∧
    (∀ s', Step s s' → s.next_content_id ≤ s'.next_content_id) := by
  have hInv := RegistryInv_reachable h
  refine ⟨hInv, ?_, ?_, ?_, ?_, ?_⟩
  · intro fp1 fp2 id ha hb
    exact index_inj_of_inv hInv ha hb
  · intro fp id1 id2 ha hb
    rw [ha] at hb
    exact Option.some.inj hb
  · intro c1 c2 fp1 fp2 id1 id2 hne h1 h2
    exact register_distinct_ids hInv hne h1 h2
  · intro c1 c2 fp1 fp2 id1 id2 hf1 h1 hf2 h2
    exact register_fresh_increasing hf1 h1 hf2 h2
  · intro s' hs
    exact next_id_mono hs

theorem registry_invariants_witness :
    RegistryInv sEx2b ∧ sEx2b.next_content_id = 3 :=
  ⟨(registry_invariants sEx2b reachable_sEx2b).1, by decide⟩
